import Mathlib

/-!
A verification development for the fisk command-line parsing library
(choria-io/fisk).  The data model, the resolution pipeline (`Application.Parse`
and its passes in `app.go`), the structural initialisation (`Application.init`
and `checkDuplicateFlags` in `app.go`) and the plugin argument-vector
reconstruction (`CmdClause.pluginAction`) are embedded shallowly below.

The repository snapshot does not ship the tokenizer/parser sources
(`parsers.go`, `flags.go`, `args.go`, `cmd.go`, `values.go`); the definitions
for those parts are modelled from the specification document (and, where the
specification under-determines behaviour, from the repository's own unit
tests); each such definition carries a doc comment starting with
`Modelled from the spec:`.
-/

namespace Fisk

/-! ## String helpers

Small character-list based string utilities used by the embedding; they mirror
the plain Go string operations (`strings.HasPrefix`, `strings.SplitN`,
`strconv.ParseInt`, `strconv.ParseBool`) used by the source.
-/

/-- `strStarts s p` is Go `strings.HasPrefix(s, p)`. -/
def strStarts (s p : String) : Bool :=
  p.toList.isPrefixOf s.toList

/-- `strDropN s n` drops the first `n` characters of `s`. -/
def strDropN (s : String) (n : Nat) : String :=
  String.mk (s.toList.drop n)

/-- Split a character list at the first `=`, as Go `strings.SplitN(s, "=", 2)`
does for long-flag tokens. -/
def splitEqChars : List Char → (List Char × Option (List Char))
  | [] => ([], none)
  | c :: cs =>
    if c = '=' then ([], some cs)
    else
      let (l, r) := splitEqChars cs
      (c :: l, r)

/-- `splitEq s` splits a long-flag body `name=value` into the name and the
optional attached value. -/
def splitEq (s : String) : String × Option String :=
  let (l, r) := splitEqChars s.toList
  (String.mk l, r.map String.mk)

/-- Decimal digit value of a character, if any. -/
def digitVal? (c : Char) : Option Nat :=
  if '0' ≤ c ∧ c ≤ '9' then some (c.toNat - 48) else none

/-- Parse a list of decimal digits into a natural number. -/
def natOfDigits : List Char → Option Nat
  | [] => none
  | cs => cs.foldl (fun acc c => match acc, digitVal? c with
      | some n, some d => some (n * 10 + d)
      | _, _ => none) (some 0)

/-- Model of Go `strconv.ParseInt` on base-10 input (sign then digits). -/
def strToInt? (s : String) : Option Int :=
  match s.toList with
  | '-' :: rest => (natOfDigits rest).map (fun n => -(n : Int))
  | '+' :: rest => (natOfDigits rest).map (fun n => (n : Int))
  | l => (natOfDigits l).map (fun n => (n : Int))

/-- Model of Go `strconv.ParseBool`: the accepted spellings of a boolean. -/
def strToBool? (s : String) : Option Bool :=
  if s = "1" ∨ s = "t" ∨ s = "T" ∨ s = "true" ∨ s = "TRUE" ∨ s = "True" then
    some true
  else if s = "0" ∨ s = "f" ∨ s = "F" ∨ s = "false" ∨ s = "FALSE" ∨ s = "False" then
    some false
  else
    none

/-! ## Value converters

`values.go` is not part of the snapshot.  The converter kinds below cover the
value types exercised by the claims and the repository's tests: `String()`,
`Int()`, `Bool()` (negatable boolean), `UnNegatableBool()` and `Strings()`
(cumulative). -/

/-- Modelled from the spec: §3 "Value" capability set (`values.go` absent from
`src/`).  A converter kind together with its capability probes: boolean
(`boolFlag`/`IsBoolFlag`), negatable (`BoolFlagIsNegatable`) and cumulative
(`repeatableFlag`/`IsCumulative`, which for arguments doubles as
remainder-capable). -/
inductive ValueKind where
  | str
  | int
  | boolNeg
  | boolUnNeg
  | strs
deriving DecidableEq, Repr

/-- Whether the converter is a boolean toggle (`IsBoolFlag`). -/
def ValueKind.isBool : ValueKind → Bool
  | .boolNeg => true
  | .boolUnNeg => true
  | _ => false

/-- Whether the boolean converter is negatable (`BoolFlagIsNegatable`). -/
def ValueKind.isNegatable : ValueKind → Bool
  | .boolNeg => true
  | _ => false

/-- Whether the converter accumulates repeated values (`IsCumulative`). -/
def ValueKind.isCumulative : ValueKind → Bool
  | .strs => true
  | _ => false

/-- The typed storage behind a converter. -/
inductive TargetVal where
  | strV (s : String)
  | intV (n : Int)
  | boolV (b : Bool)
  | strsV (l : List String)
deriving DecidableEq, Repr

/-- The zero state of each converter's target. -/
def ValueKind.zero : ValueKind → TargetVal
  | .str => .strV ""
  | .int => .intV 0
  | .boolNeg => .boolV false
  | .boolUnNeg => .boolV false
  | .strs => .strsV []

/-- Modelled from the spec: §3 "Value" parse step (`values.go` absent from
`src/`).  `Set` of each converter: strings always succeed, ints and booleans
parse or fail, cumulative strings append. -/
def TargetVal.set (k : ValueKind) (old : TargetVal) (s : String) : Option TargetVal :=
  match k with
  | .str => some (.strV s)
  | .int => (strToInt? s).map TargetVal.intV
  | .boolNeg => (strToBool? s).map TargetVal.boolV
  | .boolUnNeg => (strToBool? s).map TargetVal.boolV
  | .strs =>
    match old with
    | .strsV l => some (.strsV (l ++ [s]))
    | _ => some (.strsV [s])

/-! ## Clause declarations -/

/-- A declared flag clause (`FlagClause`): long name, optional short
character, converter kind, required marker, default values and bound
environment variable (empty string when unbound, as in Go). -/
structure FlagSpec where
  name : String
  short : Option Char
  kind : ValueKind
  required : Bool
  defaults : List String
  envar : String
deriving DecidableEq, Repr

/-- A declared positional argument clause (`ArgClause`). -/
structure ArgSpec where
  name : String
  kind : ValueKind
  required : Bool
  defaults : List String
  envar : String
deriving DecidableEq, Repr

/-- A declared command (`CmdClause`) owning its flag group, argument group and
nested command group. -/
inductive CmdSpec where
  | mk (name : String) (aliases : List String) (flags : List FlagSpec)
       (args : List ArgSpec) (cmds : List CmdSpec)

def CmdSpec.name : CmdSpec → String
  | .mk n _ _ _ _ => n

def CmdSpec.aliases : CmdSpec → List String
  | .mk _ a _ _ _ => a

def CmdSpec.flags : CmdSpec → List FlagSpec
  | .mk _ _ f _ _ => f

def CmdSpec.args : CmdSpec → List ArgSpec
  | .mk _ _ _ a _ => a

def CmdSpec.cmds : CmdSpec → List CmdSpec
  | .mk _ _ _ _ c => c

/-- An application specification (`Application`): name, flag group, argument
group, command group and the `noInterspersed` switch. -/
structure AppSpec where
  name : String
  flags : List FlagSpec
  args : List ArgSpec
  cmds : List CmdSpec
  noInterspersed : Bool

/-- A convenience constructor for undecorated clauses. -/
def mkFlag (name : String) (kind : ValueKind) : FlagSpec :=
  ⟨name, none, kind, false, [], ""⟩

/-- The flags installed by `New` in `app.go` (help plus the hidden help,
completion and man-page flags), all of them `UnNegatableBool`. -/
def builtinFlags : List FlagSpec :=
  [mkFlag "help" .boolUnNeg,
   mkFlag "help-long" .boolUnNeg,
   mkFlag "help-compact" .boolUnNeg,
   mkFlag "help-man" .boolUnNeg,
   mkFlag "completion-bash" .boolUnNeg,
   mkFlag "completion-script-bash" .boolUnNeg,
   mkFlag "completion-script-zsh" .boolUnNeg]

/-- The long names claimed by `New`'s built-in flags. -/
def builtinNames : List String :=
  builtinFlags.map FlagSpec.name

/-- `newApp` mirrors `New` in `app.go` followed by the user's clause
registrations: the built-in flags come first, then the user's flags. -/
def newApp (name : String) (flags : List FlagSpec) (args : List ArgSpec)
    (cmds : List CmdSpec) : AppSpec :=
  ⟨name, builtinFlags ++ flags, args, cmds, false⟩

/-! ## Errors -/

/-- The error kinds of `errors.go`, plus the construction-time errors produced
by `init` (`app.go`) and the group validations, and conversion failures
surfaced by `Value.Set`. -/
inductive FErr where
  | unknownLongFlag (name : String)
  | unknownShortFlag (c : Char)
  | expectedFlagArgument
  | commandNotSpecified
  | subCommandRequired
  | requiredArgument (name : String)
  | requiredFlag (name : String)
  | expectedKnownCommand
  | flagCannotRepeat (name : String)
  | unexpectedArgument (arg : String)
  | conversionFailed (name value : String)
  | mixedArgsAndCommands
  | duplicateLongFlag (name : String)
  | duplicateShortFlag (c : Char)
  | defaultsCannotRepeat (name : String)
  | remainderArgNotLast
  | requiredArgAfterOptional
  | internal
deriving DecidableEq, Repr

/-! ## Typed value storage

Each clause owns a typed target mutated through its converter.  One parse's
storage is modelled as two association lists keyed by clause name (long flag
names are unique along an initialised command chain; the embedding likewise
assumes argument names are unique along the matched chain, which holds in
every scenario the claims describe). -/

/-- The typed targets of the clauses visible to one parse. -/
structure Store where
  flagVals : List (String × TargetVal)
  argVals : List (String × TargetVal)
deriving DecidableEq, Repr

/-- Lookup in an association list. -/
def alistGet (l : List (String × TargetVal)) (n : String) : Option TargetVal :=
  (l.find? (fun p => p.fst = n)).map Prod.snd

/-- Replace the value stored under `n` (first occurrence). -/
def alistPut (l : List (String × TargetVal)) (n : String) (v : TargetVal) :
    List (String × TargetVal) :=
  l.map (fun p => if p.fst = n then (p.fst, v) else p)

def Store.getFlag (st : Store) (n : String) : Option TargetVal :=
  alistGet st.flagVals n

def Store.getArg (st : Store) (n : String) : Option TargetVal :=
  alistGet st.argVals n

/-- Run a flag clause's converter on a raw string, mutating its target;
a conversion failure surfaces as an error, as `Value.Set` does in Go. -/
def Store.setFlag (st : Store) (f : FlagSpec) (v : String) : Except FErr Store :=
  let old := (st.getFlag f.name).getD f.kind.zero
  match TargetVal.set f.kind old v with
  | some tv => .ok { st with flagVals := alistPut st.flagVals f.name tv }
  | none => .error (.conversionFailed f.name v)

/-- Run an argument clause's converter on a raw string. -/
def Store.setArg (st : Store) (a : ArgSpec) (v : String) : Except FErr Store :=
  let old := (st.getArg a.name).getD a.kind.zero
  match TargetVal.set a.kind old v with
  | some tv => .ok { st with argVals := alistPut st.argVals a.name tv }
  | none => .error (.conversionFailed a.name v)

/-! ## The parser

The tokenizer and parser sources are absent from the snapshot; the matching
below is modelled from the specification (§4.1, §4.2) and the repository's
unit tests. -/

/-- One matched element of the `ParseContext` (`ParseElement`): which clause
matched, with which raw string value. -/
inductive Elem where
  | flagE (f : FlagSpec) (v : String)
  | argE (a : ArgSpec) (v : String)
  | cmdE (c : CmdSpec)

/-- The traversal state of one parse: the merged visible flag chain, the
pending (unfilled) arguments, the merged argument chain for the resolution
passes, the current command's subcommands, the matched command path and the
args-only mode. -/
structure PCtx where
  flags : List FlagSpec
  args : List ArgSpec
  allArgs : List ArgSpec
  cmds : List CmdSpec
  path : List String
  argsOnly : Bool

/-- Long-name lookup in the visible flag chain (`flagGroup.long`). -/
def lookupLong (fs : List FlagSpec) (n : String) : Option FlagSpec :=
  fs.find? (fun f => f.name = n)

/-- Short-character lookup in the visible flag chain (`flagGroup.short`). -/
def lookupShort (fs : List FlagSpec) (c : Char) : Option FlagSpec :=
  fs.find? (fun f => f.short = some c)

/-- Modelled from the spec: §4.2 long-flag resolution (`flags.go` absent from
`src/`).  A literally registered flag takes precedence over negation-parsing
(spec: a flag "literally named with a `no-` prefix itself ... takes
precedence over negation-parsing"), so a literal match is an ordinary match
with negation not attempted — consistent with `TestNegativePrefixLongFlag`,
which pins only that such a token parses without error (the matching phase
records elements; converters run later, in `setValues`).  When the literal
lookup fails and the token starts with `no-`, the stripped name must resolve
to a negatable boolean (`TestNoBool`, `TestNegateNonBool`,
`TestNegatableBool`); anything else is `ErrUnknownLongFlag`.  Returns the
flag and whether it is the negated form. -/
def resolveLong (fs : List FlagSpec) (nm : String) : Except FErr (FlagSpec × Bool) :=
  match lookupLong fs nm with
  | some f => .ok (f, false)
  | none =>
    if strStarts nm "no-" then
      match lookupLong fs (strDropN nm 3) with
      | some f => if f.kind = .boolNeg then .ok (f, true) else .error (.unknownLongFlag nm)
      | none => .error (.unknownLongFlag nm)
    else .error (.unknownLongFlag nm)

/-- Modelled from the spec: §4.2 short-flag runs (`parsers.go` absent from
`src/`).  A run is resolved character by character; every character other
than the last must be a boolean-like flag, and only the last may consume a
value, taken from the attached remainder of the run (a leading `=` in the
attachment is stripped, per the §8 equivalence of `-abc10` and
`-a -b -c=10`) or else from the next argument (which must not itself look
like a flag).  Produces the matched (flag, raw value) pairs and the argv
entries left unconsumed. -/
def runShort (fs : List FlagSpec) :
    List Char → List String → Except FErr (List (FlagSpec × String) × List String)
  | [], rest => .ok ([], rest)
  | c :: cs, rest =>
    match lookupShort fs c with
    | none => .error (.unknownShortFlag c)
    | some f =>
      if f.kind.isBool then
        match runShort fs cs rest with
        | .ok (ps, r) => .ok ((f, "true") :: ps, r)
        | .error e => .error e
      else
        match cs with
        | [] =>
          match rest with
          | [] => .error .expectedFlagArgument
          | v :: tail =>
            if strStarts v "-" then .error .expectedFlagArgument
            else .ok ([(f, v)], tail)
        | d :: ds =>
          let body := if d = '=' then ds else d :: ds
          .ok ([(f, String.mk body)], rest)

/-- The answer of the traversal: the matched elements in order, the final
traversal state, the argv entries that were left unconsumed (checked against
end-of-line by `Parse`) and the first structural error, if any.  The parser
stops at the first error (stop-early, no accumulation). -/
def PResult := List Elem × PCtx × List String × Option FErr

/-- Modelled from the spec: §4.1/§4.2 tokenisation and matching
(`parsers.go` absent from `src/`).  Walks the raw argument vector against the
active group chain: `--` flips args-only mode; long tokens split on the first
`=` and resolve through `resolveLong` (boolean flags take the attached value
or `true`, the negated form takes `false`, value flags take the attached
value or consume the next entry); short runs go through `runShort`;
positional tokens fill the pending arguments in declared order (a cumulative
argument keeps consuming; with interspersion disabled the first filled
argument flips args-only mode) and otherwise select a subcommand by name or
alias, descending into its groups (flags are inherited downward, arguments
and subcommands are not).  A positional matching neither is left unconsumed
at top level and is `ErrExpectedKnownCommand` when subcommands exist.  The
fuel always suffices because each step consumes at least one entry. -/
def parseLoop (noInt : Bool) : Nat → PCtx → List String → List Elem → PResult
  | 0, ctx, rest, acc => (acc, ctx, rest, some .internal)
  | _ + 1, ctx, [], acc => (acc, ctx, [], none)
  | fuel + 1, ctx, s :: rest, acc =>
    let positional : PResult :=
      match ctx.args with
      | a :: more =>
        let ctx1 := if noInt then { ctx with argsOnly := true } else ctx
        if a.kind.isCumulative then
          parseLoop noInt fuel ctx1 rest (acc ++ [.argE a s])
        else
          parseLoop noInt fuel { ctx1 with args := more } rest (acc ++ [.argE a s])
      | [] =>
        match ctx.cmds.find? (fun c => c.name = s ∨ s ∈ c.aliases) with
        | some c =>
          parseLoop noInt fuel
            { flags := ctx.flags ++ c.flags, args := c.args,
              allArgs := ctx.allArgs ++ c.args, cmds := c.cmds,
              path := ctx.path ++ [c.name], argsOnly := ctx.argsOnly }
            rest (acc ++ [.cmdE c])
        | none =>
          if ctx.cmds.isEmpty then (acc, ctx, s :: rest, none)
          else (acc, ctx, s :: rest, some .expectedKnownCommand)
    if ctx.argsOnly then positional
    else if s = "--" then parseLoop noInt fuel { ctx with argsOnly := true } rest acc
    else if strStarts s "--" then
      let (nm, att) := splitEq (strDropN s 2)
      match resolveLong ctx.flags nm with
      | .error e => (acc, ctx, s :: rest, some e)
      | .ok (f, inverted) =>
        if f.kind.isBool then
          let v := if inverted then "false" else att.getD "true"
          parseLoop noInt fuel ctx rest (acc ++ [.flagE f v])
        else
          match att with
          | some v => parseLoop noInt fuel ctx rest (acc ++ [.flagE f v])
          | none =>
            match rest with
            | [] => (acc, ctx, s :: rest, some .expectedFlagArgument)
            | v :: tail =>
              if strStarts v "-" then (acc, ctx, s :: rest, some .expectedFlagArgument)
              else parseLoop noInt fuel ctx tail (acc ++ [.flagE f v])
    else if strStarts s "-" ∧ s ≠ "-" then
      match runShort ctx.flags (strDropN s 1).toList rest with
      | .error e => (acc, ctx, s :: rest, some e)
      | .ok (ps, rest1) =>
        parseLoop noInt fuel ctx rest1 (acc ++ ps.map (fun p => .flagE p.fst p.snd))
    else if s = "-" then (acc, ctx, s :: rest, some (.unknownShortFlag '-'))
    else positional

/-- The initial traversal state of an application (the application's own
groups, path empty, interspersion allowed so far). -/
def initialCtx (app : AppSpec) : PCtx :=
  ⟨app.flags, app.args, app.args, app.cmds, [], false⟩

/-- Run the parser over an argument vector (`tokenize` plus `parse`). -/
def runParser (app : AppSpec) (argv : List String) : PResult :=
  parseLoop app.noInterspersed (argv.length + 1) (initialCtx app) argv []

/-! ## Structural initialisation (`Application.init`, `checkDuplicateFlags`) -/

/-- The first `some` in a list of optional errors. -/
def firstSome : List (Option FErr) → Option FErr
  | [] => none
  | some e :: _ => some e
  | none :: rest => firstSome rest

/-- The duplicate check of one flag against one ancestor group, in the order
`checkDuplicateFlags` uses: the short character first, then the long name. -/
def flagDupIn (g : List FlagSpec) (f : FlagSpec) : Option FErr :=
  match f.short with
  | some c =>
    if g.any (fun h => h.short = some c) then some (.duplicateShortFlag c)
    else if g.any (fun h => h.name = f.name) then some (.duplicateLongFlag f.name)
    else none
  | none =>
    if g.any (fun h => h.name = f.name) then some (.duplicateLongFlag f.name)
    else none

mutual

/-- `checkDuplicateFlags` from `app.go`: for each ancestor group, check every
flag of the current command against it, then recurse into the subcommands
with the current command's own group appended to the ancestor list. -/
def checkDuplicateFlags : CmdSpec → List (List FlagSpec) → Option FErr
  | .mk _ _ fl _ cs, flagGroups =>
    match firstSome (flagGroups.map (fun g => firstSome (fl.map (flagDupIn g)))) with
    | some e => some e
    | none => checkDuplicateFlagsList cs (flagGroups ++ [fl])

/-- The subcommand traversal of `checkDuplicateFlags`, stopping at the first
error. -/
def checkDuplicateFlagsList : List CmdSpec → List (List FlagSpec) → Option FErr
  | [], _ => none
  | c :: cs, groups =>
    match checkDuplicateFlags c groups with
    | some e => some e
    | none => checkDuplicateFlagsList cs groups

end

/-- Modelled from the spec: §3 FlagGroup invariant (`flags.go` absent from
`src/`).  Within one group no two flags may share a long name or short
character (`TestDuplicateLongFlag`, `TestDuplicateShortFlag`); checked by
walking the registration order with the names seen so far. -/
def checkFlagGroup : List FlagSpec → List String → List Char → Option FErr
  | [], _, _ => none
  | f :: fs, longs, shorts =>
    match f.short with
    | some c =>
      if c ∈ shorts then some (.duplicateShortFlag c)
      else if f.name ∈ longs then some (.duplicateLongFlag f.name)
      else checkFlagGroup fs (f.name :: longs) (c :: shorts)
    | none =>
      if f.name ∈ longs then some (.duplicateLongFlag f.name)
      else checkFlagGroup fs (f.name :: longs) shorts

/-- Modelled from the spec: §3 ArgGroup invariants (`args.go` absent from
`src/`): only the last argument may be remainder-capable, and once an
optional argument appears no later argument may be required unless it is the
trailing cumulative one. -/
def checkArgGroup : List ArgSpec → Bool → Option FErr
  | [], _ => none
  | a :: rest, seenOptional =>
    if a.kind.isCumulative ∧ rest ≠ [] then some .remainderArgNotLast
    else if a.required ∧ seenOptional ∧ ¬(a.kind.isCumulative ∧ rest = []) then
      some .requiredArgAfterOptional
    else checkArgGroup rest (seenOptional ∨ ¬a.required)

mutual

/-- Modelled from the spec: §4.4 per-command structural validation (`cmd.go`
absent from `src/`): each command's flag group and argument group are
validated recursively. -/
def cmdInit : CmdSpec → Option FErr
  | .mk _ _ fl ar cs =>
    match checkFlagGroup fl [] [] with
    | some e => some e
    | none =>
      match checkArgGroup ar false with
      | some e => some e
      | none => cmdInitList cs

/-- The recursive descent of the per-command validation. -/
def cmdInitList : List CmdSpec → Option FErr
  | [] => none
  | c :: cs =>
    match cmdInit c with
    | some e => some e
    | none => cmdInitList cs

end

/-- The `help` command that `init` registers (first in the command order)
whenever the application owns subcommands; its single `command` argument is
cumulative (`StringsVar`). -/
def helpCommand : CmdSpec :=
  .mk "help" [] [] [⟨"command", .strs, false, [], ""⟩] []

/-- The command order after `init`: the help command is registered and moved
first whenever the application owns subcommands. -/
def AppSpec.cmds1 (app : AppSpec) : List CmdSpec :=
  if app.cmds.isEmpty then app.cmds else helpCommand :: app.cmds

/-- `Application.init` from `app.go`, on an application not yet initialised:
reject mixing top-level arguments with top-level commands; register the help
command when subcommands exist; validate the application's own flag group and
argument group and every command recursively; then check for flag names
duplicated between each command and its ancestors (the application level
included) via `checkDuplicateFlags`. -/
def AppSpec.postInit (app : AppSpec) : Except FErr AppSpec :=
  if ¬app.cmds.isEmpty ∧ ¬app.args.isEmpty then .error .mixedArgsAndCommands
  else
    match checkFlagGroup app.flags [] [] with
    | some e => .error e
    | none =>
      match checkArgGroup app.args false with
      | some e => .error e
      | none =>
        match cmdInitList app.cmds1 with
        | some e => .error e
        | none =>
          match checkDuplicateFlagsList app.cmds1 [app.flags] with
          | some e => .error e
          | none => .ok { app with cmds := app.cmds1 }

/-- An application together with its `initialized` flag. -/
structure AppState where
  spec : AppSpec
  initialized : Bool

/-- `Application.init`: a no-op once `initialized` is set; otherwise the
structural validation runs and, on success, `initialized` is cached. -/
def AppState.init (st : AppState) : Except FErr AppState :=
  if st.initialized then .ok st
  else
    match st.spec.postInit with
    | .error e => .error e
    | .ok s => .ok ⟨s, true⟩

/-! ## The resolution pipeline (`app.go`)

The passes below translate `Application.setDefaults`, `validateRequired`,
`setValues` and the orchestration of `Application.Parse`/`execute`.  The
environment is a total function from variable names to values, with the empty
string meaning unset, exactly as Go's `os.Getenv` reports it. -/

/-- An environment (`os.Getenv`). -/
def Env := String → String

/-- Whether the clause's bound environment variable carries a value
(`HasEnvarValue`: bound, and non-empty at parse time). -/
def hasEnvar (envar : String) (env : Env) : Bool :=
  envar ≠ "" ∧ env envar ≠ ""

/-- Modelled from the spec: §6 multi-value environment binding (`envar.go`
absent from `src/`): the value splits on newlines, tolerating a trailing
carriage return per line and a trailing line break. -/
def splitEnvar (s : String) : List String :=
  let ls := (s.splitOn "\n").map (fun l =>
    if l.toList.getLast? = some '\r' then String.mk (l.toList.dropLast) else l)
  match ls.getLast? with
  | some "" => ls.dropLast
  | _ => ls

/-- Fold a converter over several raw values, stopping at the first failure. -/
def setFlagAll (f : FlagSpec) : List String → Store → Except FErr Store
  | [], st => .ok st
  | v :: vs, st =>
    match st.setFlag f v with
    | .ok st1 => setFlagAll f vs st1
    | .error e => .error e

def setArgAll (a : ArgSpec) : List String → Store → Except FErr Store
  | [], st => .ok st
  | v :: vs, st =>
    match st.setArg a v with
    | .ok st1 => setArgAll a vs st1
    | .error e => .error e

/-- Modelled from the spec: §4.3 pass 1 default-resolution for one unmatched
flag (`flags.go` absent from `src/`).  Per the repository tests
(`TestEnvarOverrideDefault`, `TestFlagMultipleValuesDefaultEnvarUnix`) a set
environment variable is used first, split into several values for cumulative
converters; otherwise the declared defaults run through the converter (a
non-cumulative converter rejects more than one declared default,
`TestFlagMultipleValuesDefaultNonRepeatable`); otherwise the target is left
at the converter's zero state. -/
def FlagSpec.setDefault (f : FlagSpec) (env : Env) (st : Store) : Except FErr Store :=
  if hasEnvar f.envar env then
    if f.kind.isCumulative then setFlagAll f (splitEnvar (env f.envar)) st
    else st.setFlag f (env f.envar)
  else if ¬f.defaults.isEmpty then
    if ¬f.kind.isCumulative ∧ f.defaults.length > 1 then
      .error (.defaultsCannotRepeat f.name)
    else setFlagAll f f.defaults st
  else .ok st

/-- Modelled from the spec: §4.3 pass 1 default-resolution for one unmatched
argument (`args.go` absent from `src/`); same rules as for flags. -/
def ArgSpec.setDefault (a : ArgSpec) (env : Env) (st : Store) : Except FErr Store :=
  if hasEnvar a.envar env then
    if a.kind.isCumulative then setArgAll a (splitEnvar (env a.envar)) st
    else st.setArg a (env a.envar)
  else if ¬a.defaults.isEmpty then
    if ¬a.kind.isCumulative ∧ a.defaults.length > 1 then
      .error (.defaultsCannotRepeat a.name)
    else setArgAll a a.defaults st
  else .ok st

/-- Modelled from the spec: §4.3 pass 2 predicate (`flags.go` absent from
`src/`): a required clause without a matched element still "needs a value"
only when neither declared defaults nor a set environment variable satisfy
it. -/
def FlagSpec.needsValue (f : FlagSpec) (env : Env) : Bool :=
  f.required ∧ ¬(¬f.defaults.isEmpty ∨ hasEnvar f.envar env)

def ArgSpec.needsValue (a : ArgSpec) (env : Env) : Bool :=
  a.required ∧ ¬(¬a.defaults.isEmpty ∨ hasEnvar a.envar env)

/-- Whether the matched elements contain a flag element with this long name. -/
def matchedFlag (elems : List Elem) (n : String) : Bool :=
  elems.any (fun e => match e with | .flagE f _ => f.name = n | _ => false)

/-- Whether the matched elements contain an argument element with this name. -/
def matchedArg (elems : List Elem) (n : String) : Bool :=
  elems.any (fun e => match e with | .argE a _ => a.name = n | _ => false)

/-- Whether the matched elements contain the application's help flag;
`Application.setDefaults` tests the matched `FlagClause`'s name against
`"help"`. -/
def hasHelpElem (elems : List Elem) : Bool :=
  matchedFlag elems "help"

/-- Default-resolution over the visible flags in order, skipping matched
clauses. -/
def setFlagDefaults (env : Env) (elems : List Elem) :
    List FlagSpec → Store → Except FErr Store
  | [], st => .ok st
  | f :: fs, st =>
    if matchedFlag elems f.name then setFlagDefaults env elems fs st
    else
      match f.setDefault env st with
      | .ok st1 => setFlagDefaults env elems fs st1
      | .error e => .error e

/-- Default-resolution over the visible arguments in order, skipping matched
clauses. -/
def setArgDefaults (env : Env) (elems : List Elem) :
    List ArgSpec → Store → Except FErr Store
  | [], st => .ok st
  | a :: as1, st =>
    if matchedArg elems a.name then setArgDefaults env elems as1 st
    else
      match a.setDefault env st with
      | .ok st1 => setArgDefaults env elems as1 st1
      | .error e => .error e

/-- `Application.setDefaults` from `app.go`: when the matched elements
include a flag named `help` the pass returns immediately (successfully,
applying nothing); otherwise every visible flag and argument clause without a
matched element receives its default-resolution. -/
def setDefaults (env : Env) (elems : List Elem) (ctx : PCtx) (st : Store) :
    Except FErr Store :=
  if hasHelpElem elems then .ok st
  else
    match setFlagDefaults env elems ctx.flags st with
    | .error e => .error e
    | .ok st1 => setArgDefaults env elems ctx.allArgs st1

/-- `Application.validateRequired` from `app.go`: the first visible flag
without a matched element that still needs a value yields `ErrRequiredFlag`,
then the arguments likewise yield `ErrRequiredArgument`. -/
def validateRequired (env : Env) (elems : List Elem) (ctx : PCtx) : Option FErr :=
  match ctx.flags.find? (fun f => ¬matchedFlag elems f.name ∧ f.needsValue env) with
  | some f => some (.requiredFlag f.name)
  | none =>
    match ctx.allArgs.find? (fun a => ¬matchedArg elems a.name ∧ a.needsValue env) with
    | some a => some (.requiredArgument a.name)
    | none => none

/-- The observable pass events of one `Parse` invocation: the start of
`setDefaults`, each converter invocation performed by `setValues`, the
pre-action dispatch, the start of `validateRequired`, the validator pass and
the action pass. -/
inductive Event where
  | sd
  | conv
  | pre
  | vr
  | vd
  | ac
deriving DecidableEq, Repr

/-- The state threaded through the `setValues` loop of `app.go`: the selected
command names so far, the last matched command, the names of flags already
set, the store, the first error and the converter-invocation events. -/
structure SVState where
  selected : List String
  lastCmd : Option CmdSpec
  flagSet : List String
  store : Store
  err : Option FErr
  events : List Event

/-- The element loop of `Application.setValues` from `app.go`: in strict
left-to-right element order, a repeated non-cumulative flag is
`ErrFlagCannotRepeat` (checked before its converter runs), otherwise each
matched flag and argument element's converter is invoked with the raw string,
and command elements extend the selected path.  The loop stops at the first
error; Go's in-place mutations up to that point are preserved in the
returned store. -/
def setValuesLoop : List Elem → SVState → SVState
  | [], s => s
  | e :: rest, s =>
    match e with
    | .flagE f v =>
      if f.name ∈ s.flagSet ∧ ¬f.kind.isCumulative then
        { s with err := some (.flagCannotRepeat f.name) }
      else
        match s.store.setFlag f v with
        | .ok st1 =>
          setValuesLoop rest
            { s with store := st1, flagSet := f.name :: s.flagSet,
                     events := s.events ++ [.conv] }
        | .error er =>
          { s with err := some er, events := s.events ++ [.conv] }
    | .argE a v =>
      match s.store.setArg a v with
      | .ok st1 => setValuesLoop rest { s with store := st1, events := s.events ++ [.conv] }
      | .error er => { s with err := some er, events := s.events ++ [.conv] }
    | .cmdE c =>
      setValuesLoop rest { s with selected := s.selected ++ [c.name], lastCmd := some c }

/-- The element loop of `setValues` started from the empty state over a
given store. -/
def svLoop (elems : List Elem) (st : Store) : SVState :=
  setValuesLoop elems ⟨[], none, [], st, none, []⟩

/-- `Application.setValues` from `app.go`: run the element loop, then fail
with `ErrSubCommandRequired` when the last matched command still owns
subcommands. -/
def setValuesGo (elems : List Elem) (st : Store) : SVState :=
  let s := svLoop elems st
  match s.err, s.lastCmd with
  | none, some c =>
    if ¬c.cmds.isEmpty then { s with err := some .subCommandRequired } else s
  | _, _ => s

/-- The zero-initialised store of the clauses visible to one parse. -/
def initStore (ctx : PCtx) : Store :=
  ⟨ctx.flags.map (fun f => (f.name, f.kind.zero)),
   ctx.allArgs.map (fun a => (a.name, a.kind.zero))⟩

/-- `Application.Parse` from `app.go`, with the termination handler set to a
no-op (the configuration of the repository's tests), returning the selected
command path and the final store, or the first error — together with the
trace of pipeline events.  The order mirrors the source exactly: `init`
inside `ParseContext` (a failure there returns before any pass), then
`setDefaults`, then `setValues`, then the pre-actions, then the completion
branch, then the parse error, the end-of-line check, the `setValues` error,
and finally `execute` (`validateRequired`, validators, actions, and the
`ErrCommandNotSpecified` check on the joined path). -/
def ParseFull (app : AppSpec) (env : Env) (argv : List String) :
    Except FErr (String × Store) × List Event :=
  match app.postInit with
  | .error e => (.error e, [])
  | .ok app1 =>
    match runParser app1 argv with
    | (elems, ctx, remaining, parseErr) =>
      let tr0 := [Event.sd]
      match setDefaults env elems ctx (initStore ctx) with
      | .error e => (.error e, tr0)
      | .ok st1 =>
        let sv := setValuesGo elems st1
        let tr1 := tr0 ++ sv.events ++ [Event.pre]
        if sv.store.getFlag "completion-bash" = some (.boolV true) then
          (.ok ("", sv.store), tr1)
        else
          match parseErr with
          | some e => (.error e, tr1)
          | none =>
            if ¬remaining.isEmpty then
              (.error (.unexpectedArgument (remaining.headD "")), tr1)
            else
              match sv.err with
              | some e => (.error e, tr1)
              | none =>
                let tr2 := tr1 ++ [Event.vr]
                match validateRequired env elems ctx with
                | some e => (.error e, tr2)
                | none =>
                  let tr3 := tr2 ++ [Event.vd, Event.ac]
                  let command := String.intercalate " " sv.selected
                  if command = "" ∧ ¬app1.cmds.isEmpty then
                    (.error .commandNotSpecified, tr3)
                  else (.ok (command, sv.store), tr3)

/-- The parse outcome alone. -/
def parseResult (app : AppSpec) (env : Env) (argv : List String) :
    Except FErr (String × Store) :=
  (ParseFull app env argv).fst

/-- The pipeline event trace alone. -/
def parseTrace (app : AppSpec) (env : Env) (argv : List String) : List Event :=
  (ParseFull app env argv).snd

/-- The environment with every variable unset. -/
def envEmpty : Env := fun _ => ""

/-! ## The plugin delegator (`CmdClause.pluginAction`)

`pluginAction` reconstructs the child process's argument vector from the
delegator's maps.  Go's `map` ranges enumerate their entries in an
unspecified (deliberately randomised) order; each map is therefore embedded
as an association list whose list order stands for one permitted enumeration
order of the same entries — runs differing only in enumeration order are the
same program state. -/

/-- The `pluginDelegator` struct: `selectedPath` is
`pc.SelectedCommand.FullCommand()` split on spaces (the matched command path
from the plugin's root command down to the leaf); `globalValue` reads
`globalFlags.long[name].value.String()` from the host's storage; `isSet` is
the shared `flagsIsSet` cell keyed by flag name. -/
structure PluginDelegator where
  command : String
  selectedPath : List String
  argsM : List (String × Option String)
  flagsM : List (String × Option String)
  cumuFlagsM : List (String × Option (List String))
  boolFlagsM : List (String × Bool)
  unNegBoolFlagsM : List (String × Bool)
  cumuArgsM : List (String × Option (List String))
  proxyGlobals : List String
  globalValue : String → String
  isSet : String → Bool

/-- `CmdClause.pluginAction`'s argument-vector reconstruction: the
subcommand path segments below the plugin's root (`parts[1:]`), then the
non-nil non-empty `args` entries appended bare, then the set `flags` as
`--name=value`, then the set `cumuFlags` expanded per entry, then the set
`boolFlags` as `--name`/`--no-name`, then the set-and-true `unNegBoolFlags`
as `--name`, then the set `proxyGlobals` as `--name=value` from host storage,
and last the non-empty entries of the `cumuArgs` lists appended bare. -/
def pluginArgs (pd : PluginDelegator) : List String :=
  pd.selectedPath.drop 1
  ++ pd.argsM.filterMap (fun p =>
      match p.snd with
      | some v => if v ≠ "" then some v else none
      | none => none)
  ++ pd.flagsM.filterMap (fun p =>
      match p.snd with
      | some v => if pd.isSet p.fst then some ("--" ++ p.fst ++ "=" ++ v) else none
      | none => none)
  ++ (pd.cumuFlagsM.map (fun p =>
      match p.snd with
      | none => []
      | some l => l.filterMap (fun cv =>
          if pd.isSet p.fst then some ("--" ++ p.fst ++ "=" ++ cv) else none))).flatten
  ++ pd.boolFlagsM.filterMap (fun p =>
      if pd.isSet p.fst then
        some (if p.snd then "--" ++ p.fst else "--no-" ++ p.fst)
      else none)
  ++ pd.unNegBoolFlagsM.filterMap (fun p =>
      if pd.isSet p.fst ∧ p.snd then some ("--" ++ p.fst) else none)
  ++ pd.proxyGlobals.filterMap (fun k =>
      if pd.isSet k then some ("--" ++ k ++ "=" ++ pd.globalValue k) else none)
  ++ (pd.cumuArgsM.map (fun p =>
      match p.snd with
      | none => []
      | some l => l.filter (fun i => i ≠ ""))).flatten

/-! ## Decidability of parse outcomes -/

instance {α β : Type} [DecidableEq α] [DecidableEq β] : DecidableEq (Except α β) := fun x y =>
  match x, y with
  | .error a, .error b =>
    if h : a = b then isTrue (by rw [h]) else isFalse (by simp [h])
  | .ok a, .ok b =>
    if h : a = b then isTrue (by rw [h]) else isFalse (by simp [h])
  | .error _, .ok _ => isFalse (by simp)
  | .ok _, .error _ => isFalse (by simp)

/-! ## Concrete applications and auxiliary predicates used by the claims -/

/-- The ordering property asserted by the specification's pipeline
description: every converter invocation performed by `setValues` happens only
after the `validateRequired` pass has run. -/
def ValidateRequiredBeforeConversions (tr : List Event) : Prop :=
  ∀ j : Fin tr.length, tr.get j = .conv →
    ∃ i : Fin tr.length, i.val < j.val ∧ tr.get i = .vr

instance (tr : List Event) : Decidable (ValidateRequiredBeforeConversions tr) :=
  inferInstanceAs (Decidable (∀ j : Fin tr.length, tr.get j = .conv →
    ∃ i : Fin tr.length, i.val < j.val ∧ tr.get i = .vr))

/-- A one-flag application: `Flag("x", ...).String()`. -/
def appC1 : AppSpec := newApp "test" [mkFlag "x" .str] [] []

/-- A required string flag bound to `TEST_ENVAR`
(`Flag("t", "").Envar("TEST_ENVAR").Required().String()`). -/
def appC3flag : AppSpec := newApp "test" [⟨"t", none, .str, true, [], "TEST_ENVAR"⟩] [] []

/-- A required string argument bound to `TEST_ENVAR`. -/
def appC3arg : AppSpec := newApp "test" [] [⟨"t", .str, true, [], "TEST_ENVAR"⟩] []

/-- An environment where only `TEST_ENVAR` is set, to `123`. -/
def envSet : Env := fun s => if s = "TEST_ENVAR" then "123" else ""

/-- The store after `appC3flag` resolves its flag from the environment. -/
def c3FlagStore (v : String) : Store :=
  ⟨(builtinFlags.map (fun f => (f.name, f.kind.zero))) ++ [("t", .strV v)], []⟩

/-- The store after `appC3arg` resolves its argument from the environment. -/
def c3ArgStore (v : String) : Store :=
  ⟨builtinFlags.map (fun f => (f.name, f.kind.zero)), [("t", .strV v)]⟩

/-- The nested command application of `TestSelectedCommand`:
a top-level command `c0` with a single subcommand `c1`. -/
def c1Cmd : CmdSpec := .mk "c1" [] [] [] []

def c0Cmd : CmdSpec := .mk "c0" [] [] [] [c1Cmd]

def appC4 : AppSpec := newApp "test" [] [] [c0Cmd]

/-- `appC4` after `init`: the help command is registered first. -/
def appC4i : AppSpec := { appC4 with cmds := [helpCommand, c0Cmd] }

/-- A negatable boolean flag literally registered under a `no-` name
(`TestNegativePrefixLongFlag`). -/
def appC5lit : AppSpec := newApp "test" [mkFlag "no-comment" .boolNeg] [] []

/-- A negatable boolean flag with a `true` default. -/
def appC5neg : AppSpec := newApp "test" [⟨"b", none, .boolNeg, false, ["true"], ""⟩] [] []

/-- A non-negatable boolean flag (`TestNegatableBool`). -/
def appC5unneg : AppSpec := newApp "test" [mkFlag "unneg" .boolUnNeg] [] []

/-- A non-boolean flag (`TestNegateNonBool`). -/
def appC5int : AppSpec := newApp "test" [mkFlag "b" .int] [] []

/-- An application with no user flag at all. -/
def appC5none : AppSpec := newApp "test" [] [] []

/-- The three-short-flag application family of the §8 equivalence: `a` and
`b` are boolean-like, `c` takes a value. -/
def appC6k (ka kb kc : ValueKind) : AppSpec :=
  newApp "test"
    [⟨"short0", some 'a', ka, false, [], ""⟩,
     ⟨"short1", some 'b', kb, false, [], ""⟩,
     ⟨"short2", some 'c', kc, false, [], ""⟩] [] []

/-- The single-flag family of the repeat claim: a cumulative (`Strings()`)
or non-cumulative (`String()`) flag. -/
def c7flag (name : String) (cumul : Bool) : FlagSpec :=
  mkFlag name (if cumul then .strs else .str)

/-- A concrete store holding only a cumulative flag `b`. -/
def c7Store : Store := ⟨[("b", .strsV [])], []⟩

/-- The ancestors relation of the command tree: `Reach app gs c` holds when
command `c` is reachable in `app`'s tree and `gs` lists the flag groups of
its ancestors (the application's own group first). -/
inductive Reach (app : AppSpec) : List (List FlagSpec) → CmdSpec → Prop where
  | top : ∀ c ∈ app.cmds, Reach app [app.flags] c
  | sub : ∀ {gs c}, Reach app gs c → ∀ s ∈ c.cmds, Reach app (gs ++ [c.flags]) s

/-- An application exercising the duplicate-flag invariant: a global flag
`g` and a command `sub` owning flag `x`. -/
def c8SubCmd : CmdSpec := .mk "sub" [] [mkFlag "x" .str] [] []

def appC8 : AppSpec := newApp "test" [mkFlag "g" .str] [] [c8SubCmd]

/-- `appC8` after `postInit`. -/
def appC8i : AppSpec := { appC8 with cmds := [helpCommand, c8SubCmd] }

/-- The interspersion scenario: `Interspersed(false)`, arguments `a1`, `a2`
and flag `flag` (`TestInterspersedFalse`). -/
def appC9 : AppSpec :=
  { newApp "test" [mkFlag "flag" .str]
      [⟨"a1", .str, false, [], ""⟩, ⟨"a2", .str, false, [], ""⟩] [] with
    noInterspersed := true }

/-- A plugin delegator state for a leaf `plug sub` with two non-cumulative
positional arguments, `x` declared first holding `"1"` and `y` declared
second holding `"2"`, its `args` map enumerated in declaration order. -/
def pdDecl : PluginDelegator :=
  { command := "plug-exe", selectedPath := ["plug", "sub"],
    argsM := [("x", some "1"), ("y", some "2")],
    flagsM := [], cumuFlagsM := [], boolFlagsM := [], unNegBoolFlagsM := [],
    cumuArgsM := [], proxyGlobals := [],
    globalValue := fun _ => "", isSet := fun _ => false }

/-- The same delegator state with the `args` map enumerated in the other
order — a permitted enumeration of the same Go map. -/
def pdPerm : PluginDelegator :=
  { pdDecl with argsM := [("y", some "2"), ("x", some "1")] }

/-! ## Theorems -/

/-- C1 (counterexample): on the application `appC1` with input `--x=1`, the
pipeline's event trace runs the matched flag's converter (the `conv` event)
before `validateRequired` (the `vr` event), refuting the claimed pass order
in which `validateRequired` completes before any converter invocation by
`setValues`. -/
theorem c1_counterexample :
    ¬ ValidateRequiredBeforeConversions (parseTrace appC1 envEmpty ["--x=1"]) := by
  decide

/-- C9: with interspersion disabled, arguments `a1`, `a2` and flag `flag`,
parsing `["a1", "--flag=flag"]` succeeds and binds `a1 = "a1"` and
`a2 = "--flag=flag"` (the literal token), leaving the flag's target at its
zero state: after the first positional token, flag-looking tokens are
treated as positional values. -/
theorem c9_interspersed :
    (parseResult appC9 envEmpty ["a1", "--flag=flag"]).toOption.map
      (fun r => (r.fst, r.snd.getArg "a1", r.snd.getArg "a2", r.snd.getFlag "flag"))
    = some ("", some (.strV "a1"), some (.strV "--flag=flag"), some (.strV "")) := by
  decide

/-- C5: for a `--no-<name>` token: a flag literally registered under the
name `no-<name>` takes precedence over negation-parsing and is matched as an
ordinary flag (a boolean, so its target is set `true`); when there is no
literal match and `<name>` is a registered negatable boolean, its target is
set `false` regardless of a `true` default; when `<name>` is a non-negatable
boolean, a non-boolean, or not registered at all, the parse fails with
`ErrUnknownLongFlag` — not a silent no-op. -/
theorem c5_negation :
    ((parseResult appC5lit envEmpty ["--no-comment"]).toOption.map
       (fun r => r.snd.getFlag "no-comment") = some (some (.boolV true)))
    ∧ ((parseResult appC5neg envEmpty ["--no-b"]).toOption.map
       (fun r => r.snd.getFlag "b") = some (some (.boolV false)))
    ∧ parseResult appC5unneg envEmpty ["--no-unneg"] = .error (.unknownLongFlag "no-unneg")
    ∧ parseResult appC5int envEmpty ["--no-b"] = .error (.unknownLongFlag "no-b")
    ∧ parseResult appC5none envEmpty ["--no-x"] = .error (.unknownLongFlag "no-x") := by
  refine ⟨by decide, by decide, by decide, by decide, by decide⟩

/-- C6: for every choice of converters in which the flags with shorts `a`
and `b` are boolean-like and the flag with short `c` takes a value, parsing
the single token `-abc10` produces exactly the same outcome (values and
error alike) as parsing the three tokens `-a -b -c=10`: the short-flag run
resolves character by character and only the last character consumes the
attached value. -/
theorem c6_shortrun (ka kb kc : ValueKind) (ha : ka.isBool = true)
    (hb : kb.isBool = true) (hc : kc.isBool = false) :
    ParseFull (appC6k ka kb kc) envEmpty ["-abc10"]
      = ParseFull (appC6k ka kb kc) envEmpty ["-a", "-b", "-c=10"] := by
  cases ka <;> cases kb <;> cases kc <;> simp_all [ValueKind.isBool] <;> decide

/-- C6 (witness): the equivalence evaluated at negatable booleans `a`, `b`
and the `Int` flag `c`, together with the concrete common outcome. -/
theorem c6_witness :
    ParseFull (appC6k .boolNeg .boolNeg .int) envEmpty ["-abc10"]
      = ParseFull (appC6k .boolNeg .boolNeg .int) envEmpty ["-a", "-b", "-c=10"]
    ∧ (parseResult (appC6k .boolNeg .boolNeg .int) envEmpty ["-abc10"]).toOption.map
        (fun r => (r.snd.getFlag "short0", r.snd.getFlag "short1", r.snd.getFlag "short2"))
      = some (some (.boolV true), some (.boolV true), some (.intV 10)) :=
  ⟨c6_shortrun .boolNeg .boolNeg .int rfl rfl rfl, by decide⟩

/-- C2 (code evaluation at the failing input): a plugin leaf `plug sub` with
non-cumulative arguments `x` (declared first, value `"1"`) and `y` (value
`"2"`).  `pluginAction` ranges over the Go map `pd.args`; `pdPerm` holds the
same map entries as `pdDecl` (a permutation) yet reconstructs the child
vector as `["sub", "2", "1"]`, violating the claimed declaration order
`["sub", "1", "2"]` that the enumeration `pdDecl` happens to produce. -/
theorem c2_code_bug_eval :
    pdPerm.argsM.Perm pdDecl.argsM
    ∧ pluginArgs pdDecl = ["sub", "1", "2"]
    ∧ pluginArgs pdPerm = ["sub", "2", "1"]
    ∧ pluginArgs pdPerm ≠ ["sub", "1", "2"] := by
  refine ⟨by decide, by decide, by decide, by decide⟩

/-- C10: whenever the matched elements include the application's help flag,
`setDefaults` returns immediately and successfully, before any
default-resolution: the store — every unmatched clause's target included —
is returned unchanged. -/
theorem c10_help_short (env : Env) (elems : List Elem) (ctx : PCtx) (st : Store)
    (h : hasHelpElem elems = true) :
    setDefaults env elems ctx st = .ok st := by
  simp [setDefaults, h]

/-- C10 (witness): the short-circuit evaluated on a concrete context whose
elements contain the matched help flag. -/
theorem c10_witness :
    setDefaults envEmpty [Elem.flagE (mkFlag "help" .boolUnNeg) "true"]
      (initialCtx appC1) (initStore (initialCtx appC1))
    = .ok (initStore (initialCtx appC1)) :=
  c10_help_short envEmpty _ _ _ (by decide)

/-- Updating an association-list entry that is present changes exactly the
looked-up value. -/
theorem alistGet_put_of_mem (l : List (String × TargetVal)) (n : String)
    (v w : TargetVal) (h : alistGet l n = some w) :
    alistGet (alistPut l n v) n = some v := by
  induction l with
  | nil => simp [alistGet] at h
  | cons p rest ih =>
    rcases p with ⟨a, b⟩
    by_cases hp : a = n
    · subst hp
      simp [alistGet, alistPut, List.find?]
    · have h1 : alistGet rest n = some w := by
        simpa [alistGet, List.find?, hp] using h
      simpa [alistGet, alistPut, List.find?, hp] using ih h1

/-- `Set` on a cumulative strings flag never fails and appends the raw
value. -/
theorem setFlag_strs (st : Store) (f : FlagSpec) (hf : f.kind = .strs)
    (v : String) (l : List String) (h : st.getFlag f.name = some (.strsV l)) :
    st.setFlag f v
      = .ok { st with flagVals := alistPut st.flagVals f.name (.strsV (l ++ [v])) } := by
  simp [Store.setFlag, h, hf, TargetVal.set]

/-- Running the `setValues` element loop over repeated occurrences of one
cumulative flag accumulates the raw values in encounter order and produces
no error. -/
theorem setValuesLoop_strs (f : FlagSpec) (hf : f.kind = .strs) (vals : List String) :
    ∀ (s : SVState) (l : List String), s.store.getFlag f.name = some (.strsV l) →
      (setValuesLoop (vals.map (.flagE f)) s).err = s.err
      ∧ (setValuesLoop (vals.map (.flagE f)) s).store.getFlag f.name
          = some (.strsV (l ++ vals))
      ∧ (setValuesLoop (vals.map (.flagE f)) s).lastCmd = s.lastCmd := by
  induction vals with
  | nil =>
    intro s l h
    refine ⟨rfl, ?_, rfl⟩
    simpa using h
  | cons v vs ih =>
    intro s l h
    have hcum : f.kind.isCumulative = true := by rw [hf]; rfl
    have hset := setFlag_strs s.store f hf v l h
    have hget : (⟨alistPut s.store.flagVals f.name (.strsV (l ++ [v])),
        s.store.argVals⟩ : Store).getFlag f.name = some (.strsV (l ++ [v])) := by
      have h2 : alistGet s.store.flagVals f.name = some (.strsV l) := h
      exact alistGet_put_of_mem _ _ _ _ h2
    have step :
        setValuesLoop ((v :: vs).map (.flagE f)) s
          = setValuesLoop (vs.map (.flagE f))
              { s with
                store := ⟨alistPut s.store.flagVals f.name (.strsV (l ++ [v])),
                  s.store.argVals⟩,
                flagSet := f.name :: s.flagSet,
                events := s.events ++ [.conv] } := by
      simp [setValuesLoop, hcum, hset]
    rw [step]
    have ihr := ih
      { s with
        store := ⟨alistPut s.store.flagVals f.name (.strsV (l ++ [v])),
          s.store.argVals⟩,
        flagSet := f.name :: s.flagSet,
        events := s.events ++ [.conv] } (l ++ [v]) hget
    refine ⟨ihr.1, ?_, ihr.2.2⟩
    rw [ihr.2.1]
    simp

/-- C7: a flag clause matched more than once: with a non-cumulative
converter the `setValues` pass stops with `ErrFlagCannotRepeat` (detected at
the second occurrence, before its converter runs); with a cumulative
converter the repeated raw values accumulate into the target in encounter
order and the pass reports no error. -/
theorem c7_repeat (name : String) (cumul : Bool) (v0 v1 : String) (vs : List String)
    (st : Store) (l0 : List String)
    (hst : cumul = true → st.getFlag name = some (.strsV l0)) :
    (cumul = false →
      (setValuesGo ((v0 :: v1 :: vs).map (.flagE (c7flag name cumul))) st).err
        = some (.flagCannotRepeat name))
    ∧ (cumul = true →
      (setValuesGo ((v0 :: v1 :: vs).map (.flagE (c7flag name cumul))) st).err = none
      ∧ (setValuesGo ((v0 :: v1 :: vs).map (.flagE (c7flag name cumul))) st).store.getFlag
          name = some (.strsV (l0 ++ (v0 :: v1 :: vs)))) := by
  constructor
  · intro hc
    subst hc
    simp [setValuesGo, svLoop, setValuesLoop, c7flag, Store.setFlag, TargetVal.set,
      ValueKind.isCumulative, mkFlag]
  · intro hc
    subst hc
    have hf : (c7flag name true).kind = .strs := rfl
    have h0 : (⟨[], none, [], st, none, []⟩ : SVState).store.getFlag
        (c7flag name true).name = some (.strsV l0) := hst rfl
    obtain ⟨hErr, hStore, hLast⟩ := setValuesLoop_strs (c7flag name true) hf
      (v0 :: v1 :: vs) ⟨[], none, [], st, none, []⟩ l0 h0
    have hErr1 : (setValuesLoop ((v0 :: v1 :: vs).map (.flagE (c7flag name true)))
        ⟨[], none, [], st, none, []⟩).err = none := hErr
    have hLast1 : (setValuesLoop ((v0 :: v1 :: vs).map (.flagE (c7flag name true)))
        ⟨[], none, [], st, none, []⟩).lastCmd = none := hLast
    have hgo : setValuesGo ((v0 :: v1 :: vs).map (.flagE (c7flag name true))) st
        = setValuesLoop ((v0 :: v1 :: vs).map (.flagE (c7flag name true)))
            ⟨[], none, [], st, none, []⟩ := by
      simp only [setValuesGo, svLoop, hErr1, hLast1]
    rw [hgo]
    exact ⟨hErr1, hStore⟩

/-- C7 (witness): the cumulative branch evaluated on flag `b` repeated with
`foo` then `bar`. -/
theorem c7_witness :
    (setValuesGo (["foo", "bar"].map (.flagE (c7flag "b" true))) c7Store).err = none
    ∧ (setValuesGo (["foo", "bar"].map (.flagE (c7flag "b" true))) c7Store).store.getFlag
        "b" = some (.strsV ["foo", "bar"]) :=
  (c7_repeat "b" true "foo" "bar" [] c7Store [] (fun _ => by decide)).2 rfl

/-- C3: for a required clause bound to environment variable `TEST_ENVAR`
(both the flag form and the argument form), under every environment: when
the variable is set and the token is absent from the arguments, `Parse`
succeeds and the clause's target holds the variable's value; when the
variable is unset and the token is absent, `Parse` fails with
`ErrRequiredFlag` (respectively `ErrRequiredArgument`). -/
theorem c3_required_envar (env : Env) :
    (env "TEST_ENVAR" ≠ "" →
      parseResult appC3flag env [] = .ok ("", c3FlagStore (env "TEST_ENVAR"))
      ∧ parseResult appC3arg env [] = .ok ("", c3ArgStore (env "TEST_ENVAR")))
    ∧ (env "TEST_ENVAR" = "" →
      parseResult appC3flag env [] = .error (.requiredFlag "t")
      ∧ parseResult appC3arg env [] = .error (.requiredArgument "t")) := by
  constructor <;> intro h <;> constructor <;>
  simp [parseResult, ParseFull, appC3flag, appC3arg, newApp, AppSpec.postInit, runParser,
    parseLoop, initialCtx, setDefaults, hasHelpElem, matchedFlag, matchedArg,
    setFlagDefaults, setArgDefaults, FlagSpec.setDefault, ArgSpec.setDefault, hasEnvar, h,
    Store.setFlag, Store.setArg, TargetVal.set, setValuesGo, svLoop, setValuesLoop, initStore,
    validateRequired, FlagSpec.needsValue, ArgSpec.needsValue, builtinFlags, mkFlag,
    c3FlagStore, c3ArgStore, AppSpec.cmds1, checkFlagGroup, checkArgGroup, cmdInit, cmdInitList, checkDuplicateFlagsList, firstSome,
    checkDuplicateFlags, Store.getFlag, alistGet, alistPut, ValueKind.zero,
    ValueKind.isCumulative, splitEnvar, String.intercalate]

/-- C3 (witness): evaluated under the environment that sets `TEST_ENVAR` to
`123`: both parses succeed with the target holding `"123"`. -/
theorem c3_witness :
    parseResult appC3flag envSet [] = .ok ("", c3FlagStore "123")
    ∧ parseResult appC3arg envSet [] = .ok ("", c3ArgStore "123") :=
  (c3_required_envar envSet).1 (by decide)

/-- `setValues` only adds the subcommand check on top of the element loop:
the last matched command is the loop's. -/
theorem svGo_lastCmd (elems : List Elem) (st : Store) :
    (setValuesGo elems st).lastCmd = (svLoop elems st).lastCmd := by
  unfold setValuesGo
  rcases h1 : (svLoop elems st).err with _ | e <;>
    rcases h2 : (svLoop elems st).lastCmd with _ | c <;>
      simp [h1, h2] <;> (try split) <;> simp_all

/-- The selected path is the element loop's. -/
theorem svGo_selected (elems : List Elem) (st : Store) :
    (setValuesGo elems st).selected = (svLoop elems st).selected := by
  unfold setValuesGo
  rcases h1 : (svLoop elems st).err with _ | e <;>
    rcases h2 : (svLoop elems st).lastCmd with _ | c <;>
      simp [h1, h2] <;> (try split) <;> simp_all

/-- The store is the element loop's. -/
theorem svGo_store (elems : List Elem) (st : Store) :
    (setValuesGo elems st).store = (svLoop elems st).store := by
  unfold setValuesGo
  rcases h1 : (svLoop elems st).err with _ | e <;>
    rcases h2 : (svLoop elems st).lastCmd with _ | c <;>
      simp [h1, h2] <;> (try split) <;> simp_all

/-- When the element loop succeeds but the last matched command still owns
subcommands, `setValues` reports `ErrSubCommandRequired`. -/
theorem svGo_err_sub (elems : List Elem) (st : Store) (c : CmdSpec)
    (hloop : (svLoop elems st).err = none)
    (hc : (svLoop elems st).lastCmd = some c) (hnl : ¬c.cmds.isEmpty) :
    (setValuesGo elems st).err = some .subCommandRequired := by
  simp [setValuesGo, hloop, hc, hnl]

/-- When the element loop succeeds and the last matched command is a leaf,
`setValues` succeeds. -/
theorem svGo_err_leaf (elems : List Elem) (st : Store) (c : CmdSpec)
    (hloop : (svLoop elems st).err = none)
    (hc : (svLoop elems st).lastCmd = some c) (hl : c.cmds.isEmpty) :
    (setValuesGo elems st).err = none := by
  simp [setValuesGo, hloop, hc, hl]

/-- C4: for every parse that runs through the pipeline without an earlier
error (no structural parse error, no trailing tokens, defaults and
conversions succeed, no completion mode): when the final matched command
owns a non-empty set of subcommands, `Parse` fails with
`ErrSubCommandRequired`; when the final matched command is a leaf (and the
required-check passes), `Parse` returns the full space-joined path of the
matched command names. -/
theorem c4_subcommand (app app1 : AppSpec) (env : Env) (argv : List String)
    (elems : List Elem) (ctx : PCtx) (remaining : List String) (perr : Option FErr)
    (st1 : Store)
    (hinit : app.postInit = .ok app1)
    (hrun : runParser app1 argv = (elems, ctx, remaining, perr))
    (hperr : perr = none)
    (hrem : remaining = [])
    (hsd : setDefaults env elems ctx (initStore ctx) = .ok st1)
    (hnc : ¬((setValuesGo elems st1).store.getFlag "completion-bash" = some (.boolV true)))
    (hloop : (svLoop elems st1).err = none) :
    (∀ c : CmdSpec, (setValuesGo elems st1).lastCmd = some c → ¬c.cmds.isEmpty →
      parseResult app env argv = .error .subCommandRequired)
    ∧ (∀ c : CmdSpec, (setValuesGo elems st1).lastCmd = some c → c.cmds.isEmpty →
      validateRequired env elems ctx = none →
      String.intercalate " " (setValuesGo elems st1).selected ≠ "" →
      parseResult app env argv
        = .ok (String.intercalate " " (setValuesGo elems st1).selected,
               (setValuesGo elems st1).store)) := by
  subst hperr
  subst hrem
  constructor
  · intro c hc hnl
    have hlc : (svLoop elems st1).lastCmd = some c := by
      rw [← svGo_lastCmd]; exact hc
    have herr := svGo_err_sub elems st1 c hloop hlc hnl
    simp [parseResult, ParseFull, hinit, hrun, hsd, hnc, herr]
  · intro c hc hl hvr hne
    have hlc : (svLoop elems st1).lastCmd = some c := by
      rw [← svGo_lastCmd]; exact hc
    have herr := svGo_err_leaf elems st1 c hloop hlc hl
    simp [parseResult, ParseFull, hinit, hrun, hsd, hnc, herr, hvr, hne]

/-- C4 (witness): on the `c0 → c1` command tree, parsing `["c0", "c1"]`
selects the leaf and returns the space-joined path `"c0 c1"`. -/
theorem c4_witness :
    (parseResult appC4 envEmpty ["c0", "c1"]).toOption.map Prod.fst = some "c0 c1" := by
  have h := (c4_subcommand appC4 appC4i envEmpty ["c0", "c1"]
      (runParser appC4i ["c0", "c1"]).1
      (runParser appC4i ["c0", "c1"]).2.1
      (runParser appC4i ["c0", "c1"]).2.2.1
      (runParser appC4i ["c0", "c1"]).2.2.2
      _ (by rfl) (by rfl) (by rfl) (by rfl) (by rfl) (by decide) (by rfl)).2 c1Cmd
      (by rfl) (by rfl) (by rfl) (by decide)
  rw [h]
  decide

/-- `firstSome` yields `none` exactly when every entry is `none`. -/
theorem firstSome_none_iff (l : List (Option FErr)) :
    firstSome l = none ↔ ∀ o ∈ l, o = none := by
  induction l with
  | nil => simp [firstSome]
  | cons o rest ih => rcases o with _ | e <;> simp [firstSome, ih]

/-- A clean duplicate check means no long-name collision with the group. -/
theorem flagDupIn_name (g : List FlagSpec) (f : FlagSpec)
    (hd : flagDupIn g f = none) : (g.any fun x => x.name = f.name) = false := by
  rcases hs : f.short with _ | c <;> simp only [flagDupIn, hs] at hd
  · by_cases h : (g.any fun x => x.name = f.name) = true
    · rw [if_pos h] at hd; cases hd
    · simpa using h
  · by_cases h2 : (g.any fun x => x.short = some c) = true
    · rw [if_pos h2] at hd; cases hd
    · rw [if_neg h2] at hd
      by_cases h : (g.any fun x => x.name = f.name) = true
      · rw [if_pos h] at hd; cases hd
      · simpa using h

/-- A clean duplicate check means no short-character collision with the
group. -/
theorem flagDupIn_short (g : List FlagSpec) (f : FlagSpec) (c : Char)
    (hs : f.short = some c) (hd : flagDupIn g f = none) :
    (g.any fun x => x.short = some c) = false := by
  simp only [flagDupIn, hs] at hd
  by_cases h2 : (g.any fun x => x.short = some c) = true
  · rw [if_pos h2] at hd; cases hd
  · simpa using h2

/-- Interpretation of a clean `flagDupIn` check: the flag shares neither its
long name nor its short character with any flag of the group. -/
theorem flagDupIn_none (g : List FlagSpec) (f : FlagSpec) (hd : flagDupIn g f = none) :
    ∀ h1 ∈ g, f.name ≠ h1.name ∧ ∀ ch, f.short = some ch → h1.short ≠ some ch := by
  intro h1 hh1
  have hname := flagDupIn_name g f hd
  rw [List.any_eq_false] at hname
  have hn : ¬(h1.name = f.name) := by simpa using hname h1 hh1
  refine ⟨fun he => hn he.symm, ?_⟩
  intro ch hch h2
  have hshort := flagDupIn_short g f ch hch hd
  rw [List.any_eq_false] at hshort
  have hs2 : ¬(h1.short = some ch) := by simpa using hshort h1 hh1
  exact hs2 h2

/-- A clean command-list duplicate check is clean for every member. -/
theorem checkDupList_none (cs : List CmdSpec) (groups : List (List FlagSpec))
    (h : checkDuplicateFlagsList cs groups = none) :
    ∀ c ∈ cs, checkDuplicateFlags c groups = none := by
  induction cs with
  | nil => simp
  | cons c rest ih =>
    intro d hd
    rw [checkDuplicateFlagsList] at h
    rcases hc : checkDuplicateFlags c groups with _ | e
    · rw [hc] at h
      rcases List.mem_cons.mp hd with rfl | hd2
      · exact hc
      · exact ih h d hd2
    · rw [hc] at h
      simp at h

/-- Splitting a clean `checkDuplicateFlags` run: the current command's flags
collide with no ancestor group, and the subtree check is clean with the
current group appended. -/
theorem checkDup_none (n : String) (al : List String) (fl : List FlagSpec)
    (ar : List ArgSpec) (cs : List CmdSpec) (groups : List (List FlagSpec))
    (h : checkDuplicateFlags (.mk n al fl ar cs) groups = none) :
    (∀ g ∈ groups, ∀ f ∈ fl, flagDupIn g f = none)
    ∧ checkDuplicateFlagsList cs (groups ++ [fl]) = none := by
  rw [checkDuplicateFlags] at h
  rcases hfs : firstSome (groups.map fun g => firstSome (fl.map (flagDupIn g))) with _ | e
  · rw [hfs] at h
    refine ⟨?_, h⟩
    intro g hg f hf
    have h2 : firstSome (fl.map (flagDupIn g)) = none :=
      (firstSome_none_iff _).1 hfs _ (List.mem_map_of_mem _ hg)
    exact (firstSome_none_iff _).1 h2 _ (List.mem_map_of_mem _ hf)
  · rw [hfs] at h
    simp at h

/-- A successful `init` ran the duplicate check cleanly over every top-level
command. -/
theorem postInit_dupNone (app app1 : AppSpec) (h : app.postInit = .ok app1) :
    checkDuplicateFlagsList app.cmds1 [app.flags] = none := by
  unfold AppSpec.postInit at h
  split at h
  · simp at h
  · split at h
    · simp at h
    · split at h
      · simp at h
      · split at h
        · simp at h
        · split at h
          · simp at h
          · assumption

/-- C8: structural validation is a construction-time check run by `init`,
independent of the input arguments: (1) once `initialized` is cached, `init`
returns immediately without re-validating; (2) on a non-initialised
application, mixing top-level arguments with top-level commands is rejected;
(3) whenever `init` succeeds, no command anywhere in the tree shares a long
flag name or short flag character with any of its ancestors (the application
level included) — equivalently, any such duplicate makes `init` fail. -/
theorem c8_init (stApp : AppState) (app1 : AppSpec) :
    (stApp.initialized = true → stApp.init = .ok stApp)
    ∧ (stApp.initialized = false → ¬stApp.spec.cmds.isEmpty →
        ¬stApp.spec.args.isEmpty → stApp.init = .error .mixedArgsAndCommands)
    ∧ (stApp.spec.postInit = .ok app1 →
        ∀ gs c, Reach stApp.spec gs c → ∀ f ∈ c.flags, ∀ g ∈ gs, ∀ h1 ∈ g,
          f.name ≠ h1.name ∧ ∀ ch, f.short = some ch → h1.short ≠ some ch) := by
  refine ⟨?_, ?_, ?_⟩
  · intro hi
    simp [AppState.init, hi]
  · intro hi hc ha
    simp [AppState.init, hi, AppSpec.postInit, hc, ha]
  · intro hp gs c hreach
    have hnone : checkDuplicateFlags c gs = none := by
      induction hreach with
      | top d hd =>
        have hl := postInit_dupNone _ _ hp
        have hmem : d ∈ stApp.spec.cmds1 := by
          unfold AppSpec.cmds1
          split
          · exact hd
          · exact List.mem_cons_of_mem _ hd
        exact checkDupList_none _ _ hl d hmem
      | sub hr s hs ih =>
        rename_i gs2 c2
        rcases c2 with ⟨n, al, fl, ar, cs⟩
        have h3 := checkDup_none n al fl ar cs gs2 ih
        exact checkDupList_none _ _ h3.2 s hs
    rcases c with ⟨n, al, fl, ar, cs⟩
    have h3 := checkDup_none n al fl ar cs gs hnone
    intro f hf g hg h1 hh1
    exact flagDupIn_none g f (h3.1 g hg f hf) h1 hh1

/-- C8 (witness): on the application owning global flag `g` and the command
`sub` with flag `x`, a successful `init` certifies that `x` collides with no
application-level flag. -/
theorem c8_witness :
    (mkFlag "x" ValueKind.str).name ≠ (mkFlag "g" ValueKind.str).name
    ∧ ∀ ch, (mkFlag "x" ValueKind.str).short = some ch →
        (mkFlag "g" ValueKind.str).short ≠ some ch :=
  (c8_init ⟨appC8, false⟩ appC8i).2.2 (by rfl) [appC8.flags] c8SubCmd
    (Reach.top c8SubCmd (List.Mem.head _)) (mkFlag "x" ValueKind.str) (by decide)
    appC8.flags (List.Mem.head _) (mkFlag "g" ValueKind.str) (by decide)

/-- The events recorded by `setValues` are the element loop's. -/
theorem svGo_events (elems : List Elem) (st : Store) :
    (setValuesGo elems st).events = (svLoop elems st).events := by
  unfold setValuesGo
  rcases h1 : (svLoop elems st).err with _ | e <;>
    rcases h2 : (svLoop elems st).lastCmd with _ | c <;>
      simp [h1, h2] <;> (try split) <;> simp_all

/-- Every event recorded by the `setValues` element loop is a converter
invocation. -/
theorem setValuesLoop_events_conv (elems : List Elem) :
    ∀ s : SVState, (∀ e ∈ s.events, e = .conv) →
      ∀ e ∈ (setValuesLoop elems s).events, e = .conv := by
  induction elems with
  | nil => intro s hs; exact hs
  | cons el rest ih =>
    intro s hs
    have hs1 : ∀ e ∈ s.events ++ [Event.conv], e = .conv := by
      intro e he
      rcases List.mem_append.mp he with h | h
      · exact hs e h
      · simpa using h
    cases el with
    | flagE f v =>
      simp only [setValuesLoop]
      split
      · exact hs
      · rcases hset : s.store.setFlag f v with er | st1 <;> simp only [hset]
        · exact hs1
        · exact ih _ hs1
    | argE a v =>
      simp only [setValuesLoop]
      rcases hset : s.store.setArg a v with er | st1 <;> simp only [hset]
      · exact hs1
      · exact ih _ hs1
    | cmdE c =>
      simp only [setValuesLoop]
      exact ih _ hs

/-- C1 (amended): on every `Parse` invocation the pipeline's event trace has
the shape `setDefaults`, then the converter invocations performed by
`setValues`, then the pre-action dispatch, then — when no earlier step
returned — `validateRequired`, the validators and the actions, in that
order.  In particular the converter invocations of `setValues` all happen
before `validateRequired` runs, not after it as the specification's pass
numbering states. -/
theorem c1_order (app : AppSpec) (env : Env) (argv : List String) :
    parseTrace app env argv = []
    ∨ parseTrace app env argv = [.sd]
    ∨ ∃ convs tl, parseTrace app env argv = .sd :: convs ++ .pre :: tl
        ∧ (∀ e ∈ convs, e = .conv)
        ∧ (tl = [] ∨ tl = [.vr] ∨ tl = [.vr, .vd, .ac]) := by
  rcases hpi : app.postInit with e | app1
  · left
    simp [parseTrace, ParseFull, hpi]
  · rcases hrun : runParser app1 argv with ⟨elems, ctx, remaining, perr⟩
    rcases hsd : setDefaults env elems ctx (initStore ctx) with e | st1
    · right; left
      simp [parseTrace, ParseFull, hpi, hrun, hsd]
    · have hconvs : ∀ e ∈ (setValuesGo elems st1).events, e = .conv := by
        rw [svGo_events]
        exact setValuesLoop_events_conv elems ⟨[], none, [], st1, none, []⟩ (by simp)
      right; right
      by_cases hcomp : (setValuesGo elems st1).store.getFlag "completion-bash"
          = some (.boolV true)
      · refine ⟨(setValuesGo elems st1).events, [], ?_, hconvs, by simp⟩
        simp [parseTrace, ParseFull, hpi, hrun, hsd, hcomp]
      · rcases perr with _ | e
        · rcases remaining with _ | ⟨r0, rrest⟩
          · rcases herr : (setValuesGo elems st1).err with _ | e
            · rcases hvr : validateRequired env elems ctx with _ | e
              · refine ⟨(setValuesGo elems st1).events, [.vr, .vd, .ac], ?_, hconvs,
                  by simp⟩
                simp [parseTrace, ParseFull, hpi, hrun, hsd, hcomp, herr, hvr, apply_ite]
              · refine ⟨(setValuesGo elems st1).events, [.vr], ?_, hconvs, by simp⟩
                simp [parseTrace, ParseFull, hpi, hrun, hsd, hcomp, herr, hvr]
            · refine ⟨(setValuesGo elems st1).events, [], ?_, hconvs, by simp⟩
              simp [parseTrace, ParseFull, hpi, hrun, hsd, hcomp, herr]
          · refine ⟨(setValuesGo elems st1).events, [], ?_, hconvs, by simp⟩
            simp [parseTrace, ParseFull, hpi, hrun, hsd, hcomp]
        · refine ⟨(setValuesGo elems st1).events, [], ?_, hconvs, by simp⟩
          simp [parseTrace, ParseFull, hpi, hrun, hsd, hcomp]

/-- C1 (witness): the trace shape evaluated on `appC1` with `--x=1`. -/
theorem c1_witness :
    parseTrace appC1 envEmpty ["--x=1"] = []
    ∨ parseTrace appC1 envEmpty ["--x=1"] = [.sd]
    ∨ ∃ convs tl, parseTrace appC1 envEmpty ["--x=1"] = .sd :: convs ++ .pre :: tl
        ∧ (∀ e ∈ convs, e = .conv)
        ∧ (tl = [] ∨ tl = [.vr] ∨ tl = [.vr, .vd, .ac]) :=
  c1_order appC1 envEmpty ["--x=1"]

end Fisk
